import Mathlib

/-!
Verification of the trade-republic-sdk streaming core.

This file gives a shallow embedding of the TypeScript sources
(`src/websocket.ts`, `src/index.ts`, `src/utils.ts`) and proves properties
about it.  Strings are modelled as `List Char`; JavaScript numbers that can
become `NaN` are modelled by `JSNum`; the `Map` fields of `TRWebSocket` are
modelled as association lists with JS `Map` semantics.  Fallible external
calls (HTTP requests, `JSON.parse`, transport creation) are parameters of
the functions that perform them, so that each function is a pure, executable
translation of the corresponding source method.
-/

namespace TradeRepublicSdk

/-! ## JavaScript string and number primitives used by `websocket.ts` -/

/-- Character class of the regex `\s` (the ASCII part, which is the only part
exercised by the protocol) as used by `trim()` and `split(/\s+/)`. -/
def isJsWs (c : Char) : Bool :=
  c = ' ' ∨ c = '\t' ∨ c = '\n' ∨ c = '\r' ∨ c = '\x0b' ∨ c = '\x0c'

/-- JS `String.prototype.trim()` on char lists. -/
def trimJs (s : List Char) : List Char :=
  ((s.dropWhile isJsWs).reverse.dropWhile isJsWs).reverse

/-- Splitting a *trimmed* string into its maximal whitespace-free runs, as
`split(/\s+/)` does on a trimmed input (no empty tokens are produced because
the input neither starts nor ends with whitespace).  `cur` is the reversed
current run. -/
def wordsJsAux : List Char → List Char → List (List Char)
  | [], [] => []
  | [], cur => [cur.reverse]
  | c :: rest, cur =>
    if isJsWs c then
      if cur = [] then wordsJsAux rest [] else cur.reverse :: wordsJsAux rest []
    else wordsJsAux rest (c :: cur)

def wordsJs (s : List Char) : List (List Char) := wordsJsAux s []

/-- JS `deltaString.trim().split(/\s+/)`: splitting the empty trimmed string
yields `[""]` (one empty token), otherwise the whitespace-separated runs. -/
def deltaTokens (s : List Char) : List (List Char) :=
  let t := trimJs s
  if t = [] then [[]] else wordsJs t

/-- The JS numbers arising in `applyDelta`: integers or `NaN`. -/
inductive JSNum where
  | int (n : ℤ)
  | nan
deriving DecidableEq

/-- JS `+` on numbers; `NaN` is absorbing. -/
def jsAdd : JSNum → JSNum → JSNum
  | .int a, .int b => .int (a + b)
  | _, _ => .nan

def isDigitCh (c : Char) : Bool := '0' ≤ c ∧ c ≤ '9'

def isHexDigitCh (c : Char) : Bool :=
  ('0' ≤ c ∧ c ≤ '9') ∨ ('a' ≤ c ∧ c ≤ 'f') ∨ ('A' ≤ c ∧ c ≤ 'F')

/-- Value of a run of decimal digit characters. -/
def digitsVal (ds : List Char) : ℕ :=
  ds.foldl (fun a c => 10 * a + (c.toNat - 48)) 0

def hexDigitVal (c : Char) : ℕ :=
  if '0' ≤ c ∧ c ≤ '9' then c.toNat - 48
  else if 'a' ≤ c ∧ c ≤ 'f' then c.toNat - 87
  else c.toNat - 55

def hexVal (ds : List Char) : ℕ :=
  ds.foldl (fun a c => 16 * a + hexDigitVal c) 0

/-- Decimal tail of JS `parseInt`: the leading run of digits, `NaN` if empty. -/
def parseIntDecimal (s : List Char) (sign : ℤ) : JSNum :=
  let ds := s.takeWhile isDigitCh
  if ds = [] then .nan else .int (sign * (digitsVal ds : ℤ))

/-- JS `parseInt` after the optional sign: a `0x`/`0X` prefix selects radix 16,
otherwise radix 10. -/
def parseIntUnsigned : List Char → ℤ → JSNum
  | c0 :: c1 :: r, sign =>
    if c0 = '0' ∧ (c1 = 'x' ∨ c1 = 'X') then
      let ds := r.takeWhile isHexDigitCh
      if ds = [] then .nan else .int (sign * (hexVal ds : ℤ))
    else parseIntDecimal (c0 :: c1 :: r) sign
  | s, sign => parseIntDecimal s sign

/-- JS `parseInt(string)` with the radix argument left undefined: skip leading
whitespace, read an optional sign, then parse; `NaN` when no digit follows. -/
def parseIntJS (s : List Char) : JSNum :=
  let t := s.dropWhile isJsWs
  if t.head? = some '-' then parseIntUnsigned t.tail (-1)
  else if t.head? = some '+' then parseIntUnsigned t.tail 1
  else parseIntUnsigned t 1

/-- Index conversion of JS `String.prototype.slice`: `NaN` becomes `0`,
negative indices count from the end (clamped at `0`), large indices are
clamped at the length. -/
def jsSliceIdx (len : ℤ) : JSNum → ℕ
  | .nan => 0
  | .int n => if n < 0 then (len + n).toNat else (min n len).toNat

/-- JS `s.slice(start, stop)` on char lists. -/
def jsSlice (s : List Char) (start stop : JSNum) : List Char :=
  (s.take (jsSliceIdx (s.length : ℤ) stop)).drop (jsSliceIdx (s.length : ℤ) start)

/-! ## The delta patcher (`TRWebSocket.applyDelta`, `src/websocket.ts` 73-96) -/

/-- Loop body of `applyDelta`: walk the tokens left to right; `=N` copies
`original.slice(i, i + N)` and advances the cursor, `-N` advances the cursor,
`+TEXT` appends `TEXT` (`token.slice(1)`), and any other token (including the
empty token) does nothing.  `token.startsWith(c)` is the `head?` test and
`token.slice(1)` is `tail`. -/
def applyDeltaTokens (original : List Char) :
    List (List Char) → JSNum → List Char → List Char
  | [], _, result => result
  | tok :: rest, originalIndex, result =>
    if tok.head? = some '=' then
      let count := parseIntJS tok.tail
      applyDeltaTokens original rest (jsAdd originalIndex count)
        (result ++ jsSlice original originalIndex (jsAdd originalIndex count))
    else if tok.head? = some '-' then
      applyDeltaTokens original rest (jsAdd originalIndex (parseIntJS tok.tail)) result
    else if tok.head? = some '+' then
      applyDeltaTokens original rest originalIndex (result ++ tok.tail)
    else
      applyDeltaTokens original rest originalIndex result

/-- `applyDelta(original, deltaString)` on char lists. -/
def applyDeltaChars (original deltaString : List Char) : List Char :=
  applyDeltaTokens original (deltaTokens deltaString) (.int 0) []

/-- `applyDelta(original, deltaString)` (`src/websocket.ts` 73-96). -/
def applyDelta (original deltaString : String) : String :=
  ⟨applyDeltaChars original.data deltaString.data⟩

/-! ## Well-formed delta scripts and the output-length law -/

/-- Tokens of the documented delta grammar: `=N` or `-N` with a nonempty run
of decimal digits, or `+TEXT` with whitespace-free literal text. -/
def wfTok (t : List Char) : Bool :=
  if t.head? = some '=' ∨ t.head? = some '-' then
    t.tail ≠ [] ∧ t.tail.all isDigitCh
  else if t.head? = some '+' then
    t.tail.all fun c => !isJsWs c
  else false

/-- Characters copied from the snapshot by one token (`N` for `=N`). -/
def tokCopyLen (t : List Char) : ℕ :=
  if t.head? = some '=' then digitsVal t.tail else 0

/-- Characters skipped in the snapshot by one token (`N` for `-N`). -/
def tokSkipLen (t : List Char) : ℕ :=
  if t.head? = some '-' then digitsVal t.tail else 0

/-- Characters inserted into the output by one token (`TEXT` length for `+TEXT`). -/
def tokInsLen (t : List Char) : ℕ :=
  if t.head? = some '+' then t.tail.length else 0

def scriptCopyLen (ts : List (List Char)) : ℕ := (ts.map tokCopyLen).sum

def scriptInsLen (ts : List (List Char)) : ℕ := (ts.map tokInsLen).sum

/-- Total snapshot characters consumed (copied or skipped) by a script. -/
def scriptConsumed (ts : List (List Char)) : ℕ :=
  (ts.map fun t => tokCopyLen t + tokSkipLen t).sum

theorem scriptCopyLen_cons (t : List Char) (ts : List (List Char)) :
    scriptCopyLen (t :: ts) = tokCopyLen t + scriptCopyLen ts := by
  simp [scriptCopyLen]

theorem scriptInsLen_cons (t : List Char) (ts : List (List Char)) :
    scriptInsLen (t :: ts) = tokInsLen t + scriptInsLen ts := by
  simp [scriptInsLen]

theorem scriptConsumed_cons (t : List Char) (ts : List (List Char)) :
    scriptConsumed (t :: ts) = (tokCopyLen t + tokSkipLen t) + scriptConsumed ts := by
  simp [scriptConsumed]

theorem isDigit_not_ws {c : Char} (h : isDigitCh c = true) : isJsWs c = false := by
  cases hw : isJsWs c with
  | false => rfl
  | true =>
    exfalso
    have hw' : c = ' ' ∨ c = '\t' ∨ c = '\n' ∨ c = '\r' ∨ c = '\x0b' ∨ c = '\x0c' := by
      simpa [isJsWs] using hw
    rcases hw' with h' | h' | h' | h' | h' | h' <;> subst h' <;> simp [isDigitCh] at h

theorem digit_ne {c x : Char} (h : isDigitCh c = true) (hx : isDigitCh x = false) :
    c ≠ x := by
  intro he
  subst he
  simp [h] at hx

theorem digitsVal_foldl (s : ℕ) (l : List Char) :
    l.foldl (fun a c => 10 * a + (c.toNat - 48)) s = s * 10 ^ l.length + digitsVal l := by
  induction l generalizing s with
  | nil => simp [digitsVal]
  | cons c t ih =>
    have hcons : digitsVal (c :: t) = (c.toNat - 48) * 10 ^ t.length + digitsVal t := by
      show List.foldl _ (10 * 0 + (c.toNat - 48)) t = _
      rw [ih (10 * 0 + (c.toNat - 48))]
      ring_nf
    simp only [List.foldl_cons, List.length_cons]
    rw [ih (10 * s + (c.toNat - 48)), hcons]
    ring

theorem parseIntDecimal_digits {s : List Char} (hne : s ≠ [])
    (hd : ∀ x ∈ s, isDigitCh x = true) :
    parseIntDecimal s 1 = .int (digitsVal s) := by
  have htake : s.takeWhile isDigitCh = s := List.takeWhile_eq_self_iff.mpr hd
  unfold parseIntDecimal
  rw [htake, if_neg hne]
  simp

theorem parseIntUnsigned_digits {s : List Char} (hne : s ≠ [])
    (hd : ∀ x ∈ s, isDigitCh x = true) :
    parseIntUnsigned s 1 = .int (digitsVal s) := by
  match s, hne, hd with
  | [c], _, hd =>
    have h0 : parseIntUnsigned [c] 1 = parseIntDecimal [c] 1 := rfl
    rw [h0]
    exact parseIntDecimal_digits (by simp) hd
  | c0 :: c1 :: r, _, hd =>
    have h1 : isDigitCh c1 = true := hd c1 (by simp)
    have hx : c1 ≠ 'x' := digit_ne h1 (by decide)
    have hX : c1 ≠ 'X' := digit_ne h1 (by decide)
    show (if c0 = '0' ∧ (c1 = 'x' ∨ c1 = 'X') then
        let ds := r.takeWhile isHexDigitCh
        if ds = [] then JSNum.nan else JSNum.int (1 * (hexVal ds : ℤ))
      else parseIntDecimal (c0 :: c1 :: r) 1) = JSNum.int (digitsVal (c0 :: c1 :: r))
    rw [if_neg]
    · exact parseIntDecimal_digits (by simp) hd
    · rintro ⟨-, h | h⟩
      · exact hx h
      · exact hX h

theorem parseIntJS_digits {ds : List Char} (hne : ds ≠ [])
    (hd : ds.all isDigitCh = true) :
    parseIntJS ds = .int (digitsVal ds) := by
  have hall : ∀ x ∈ ds, isDigitCh x = true := List.all_eq_true.mp hd
  match ds, hne with
  | c :: t, _ =>
    have hc : isDigitCh c = true := hall c (by simp)
    have hdrop : (c :: t).dropWhile isJsWs = c :: t := by
      rw [List.dropWhile_cons, isDigit_not_ws hc]
      simp
    have h1 : c ≠ '-' := digit_ne hc (by decide)
    have h2 : c ≠ '+' := digit_ne hc (by decide)
    simp only [parseIntJS, hdrop, List.head?_cons, List.tail_cons, Option.some.injEq]
    rw [if_neg h1, if_neg h2]
    exact parseIntUnsigned_digits (by simp) hall

theorem jsSliceIdx_ofNat (len : ℤ) (i : ℕ) (h : (i : ℤ) ≤ len) :
    jsSliceIdx len (.int i) = i := by
  show (if (i : ℤ) < 0 then (len + i).toNat else (min (i : ℤ) len).toNat) = i
  rw [if_neg (by omega), min_eq_left h]
  omega

theorem jsSlice_length (s : List Char) (i n : ℕ) (h : i + n ≤ s.length) :
    (jsSlice s (.int (i : ℤ)) (.int ((i : ℤ) + (n : ℤ)))).length = n := by
  have h1 : ((i : ℤ) + (n : ℤ)) = ((i + n : ℕ) : ℤ) := by push_cast; ring
  rw [h1]
  unfold jsSlice
  rw [jsSliceIdx_ofNat _ i (by exact_mod_cast le_trans (Nat.le_add_right i n) h),
    jsSliceIdx_ofNat _ (i + n) (by exact_mod_cast h)]
  rw [List.length_drop, List.length_take]
  omega

theorem applyDeltaTokens_length (S : List Char) (ts : List (List Char)) :
    ∀ (i : ℕ) (acc : List Char),
      (∀ t ∈ ts, wfTok t = true) →
      i + scriptConsumed ts ≤ S.length →
      (applyDeltaTokens S ts (.int (i : ℤ)) acc).length =
        acc.length + scriptCopyLen ts + scriptInsLen ts := by
  induction ts with
  | nil =>
    intro i acc _ _
    simp [applyDeltaTokens, scriptCopyLen, scriptInsLen]
  | cons t rest ih =>
    intro i acc hwf hfit
    have hwt : wfTok t = true := hwf t (by simp)
    have hwrest : ∀ u ∈ rest, wfTok u = true := fun u hu => hwf u (by simp [hu])
    rw [scriptConsumed_cons] at hfit
    rw [scriptCopyLen_cons, scriptInsLen_cons]
    by_cases he : t.head? = some '='
    · have hm : ¬ t.head? = some '-' := by rw [he]; decide
      have hp : ¬ t.head? = some '+' := by rw [he]; decide
      have hcond : t.tail ≠ [] ∧ t.tail.all isDigitCh = true := by
        unfold wfTok at hwt
        rw [if_pos (Or.inl he)] at hwt
        simpa using hwt
      have hparse := parseIntJS_digits hcond.1 hcond.2
      have hcopy : tokCopyLen t = digitsVal t.tail := by rw [tokCopyLen, if_pos he]
      have hskip : tokSkipLen t = 0 := by rw [tokSkipLen, if_neg hm]
      have hins : tokInsLen t = 0 := by rw [tokInsLen, if_neg hp]
      rw [hcopy, hskip] at hfit
      have hcast : ((i : ℤ) + (digitsVal t.tail : ℤ)) =
          ((i + digitsVal t.tail : ℕ) : ℤ) := by push_cast; ring
      have hslice := jsSlice_length S i (digitsVal t.tail) (by omega)
      have hihyp := ih (i + digitsVal t.tail)
        (acc ++ jsSlice S (.int (i : ℤ)) (.int ((i : ℤ) + (digitsVal t.tail : ℤ))))
        hwrest (by omega)
      rw [← hcast] at hihyp
      simp only [applyDeltaTokens]
      rw [if_pos he, hparse]
      simp only [jsAdd]
      rw [hihyp, List.length_append, hslice, hcopy, hins]
      omega
    · by_cases hm : t.head? = some '-'
      · have hp : ¬ t.head? = some '+' := by rw [hm]; decide
        have hcond : t.tail ≠ [] ∧ t.tail.all isDigitCh = true := by
          unfold wfTok at hwt
          rw [if_pos (Or.inr hm)] at hwt
          simpa using hwt
        have hparse := parseIntJS_digits hcond.1 hcond.2
        have hcopy : tokCopyLen t = 0 := by rw [tokCopyLen, if_neg he]
        have hskip : tokSkipLen t = digitsVal t.tail := by rw [tokSkipLen, if_pos hm]
        have hins : tokInsLen t = 0 := by rw [tokInsLen, if_neg hp]
        rw [hcopy, hskip] at hfit
        have hcast : ((i : ℤ) + (digitsVal t.tail : ℤ)) =
            ((i + digitsVal t.tail : ℕ) : ℤ) := by push_cast; ring
        have hihyp := ih (i + digitsVal t.tail) acc hwrest (by omega)
        rw [← hcast] at hihyp
        simp only [applyDeltaTokens]
        rw [if_neg he, if_pos hm, hparse]
        simp only [jsAdd]
        rw [hihyp, hcopy, hins]
        omega
      · by_cases hp : t.head? = some '+'
        · have hcopy : tokCopyLen t = 0 := by rw [tokCopyLen, if_neg he]
          have hskip : tokSkipLen t = 0 := by rw [tokSkipLen, if_neg hm]
          have hins : tokInsLen t = t.tail.length := by rw [tokInsLen, if_pos hp]
          rw [hcopy, hskip] at hfit
          simp only [applyDeltaTokens]
          rw [if_neg he, if_neg hm, if_pos hp]
          rw [ih i (acc ++ t.tail) hwrest (by omega)]
          rw [List.length_append, hcopy, hins]
          omega
        · exfalso
          unfold wfTok at hwt
          rw [if_neg (by tauto), if_neg hp] at hwt
          simp at hwt

theorem wordsJsAux_ws_free (s : List Char) :
    ∀ (cur : List Char), (∀ c ∈ cur, isJsWs c = false) →
      ∀ u ∈ wordsJsAux s cur, ∀ c ∈ u, isJsWs c = false := by
  induction s with
  | nil =>
    intro cur hcur u hu c hc
    match cur, hcur, hu with
    | [], _, hu => simp [wordsJsAux] at hu
    | a :: b, hcur, hu =>
      have hrev : u = (a :: b).reverse := by simpa [wordsJsAux] using hu
      subst hrev
      exact hcur c (List.mem_reverse.mp hc)
  | cons ch rest ih =>
    intro cur hcur u hu c hc
    simp only [wordsJsAux] at hu
    by_cases hw : isJsWs ch = true
    · rw [if_pos hw] at hu
      by_cases hcur0 : cur = []
      · rw [if_pos hcur0] at hu
        exact ih [] (by simp) u hu c hc
      · rw [if_neg hcur0] at hu
        rcases List.mem_cons.mp hu with h | h
        · subst h
          exact hcur c (List.mem_reverse.mp hc)
        · exact ih [] (by simp) u h c hc
    · rw [if_neg hw] at hu
      refine ih (ch :: cur) ?_ u hu c hc
      intro y hy
      rcases List.mem_cons.mp hy with h | h
      · subst h
        exact Bool.eq_false_iff.mpr hw
      · exact hcur y h

theorem deltaTokens_ws_free (d u : List Char) (hu : u ∈ deltaTokens d) :
    ∀ c ∈ u, isJsWs c = false := by
  intro c hc
  simp only [deltaTokens] at hu
  by_cases h : trimJs d = []
  · rw [if_pos h] at hu
    rw [List.mem_singleton.mp hu] at hc
    simp at hc
  · rw [if_neg h] at hu
    exact wordsJsAux_ws_free (trimJs d) [] (by simp) u hu c hc

/-! ## Claim theorems about the delta patcher -/

/-- C2: `applyDelta` satisfies the four literal scenarios of the spec:
`applyDelta("Hello", "=5 +World") = "HelloWorld"`,
`applyDelta("Hello World", "=5 -6") = "Hello"`,
`applyDelta("Hello World", "=11") = "Hello World"`, and the empty delta
yields the empty document for every previous snapshot `S` (in particular for
`"Hello World"`). -/
theorem applyDelta_literal_scenarios (S : String) :
    applyDelta "Hello" "=5 +World" = "HelloWorld" ∧
    applyDelta "Hello World" "=5 -6" = "Hello" ∧
    applyDelta "Hello World" "=11" = "Hello World" ∧
    applyDelta S "" = "" := by
  refine ⟨by decide, by decide, by decide, ?_⟩
  rfl

/-- C3 (counterexample): the delta `"=5"` is a script made of one well-formed
`=N` token with non-negative base-10 argument, whose claimed output length is
`5`; on the previous snapshot `""` the patcher returns a string of length `0`,
because `slice` clamps the copy at the end of the snapshot.  The claimed
unconditional length law is therefore false. -/
theorem applyDelta_length_claim_counterexample :
    deltaTokens ("=5".data) = [['=', '5']] ∧
    wfTok ['=', '5'] = true ∧
    scriptCopyLen (deltaTokens ("=5".data)) + scriptInsLen (deltaTokens ("=5".data)) = 5 ∧
    (applyDelta "" "=5").length = 0 := by decide

/-- C3 (amended): for every previous snapshot text `S` and every delta script
made of well-formed `=N`, `-N`, `+TEXT` tokens with non-negative base-10
arguments, *provided the total number of snapshot characters consumed by the
`=` and `-` tokens is at most the length of `S`*, the length of
`applyDelta(S, script)` equals the sum of the `N` arguments of the `=` tokens
plus the sum of the lengths of the `+` insertion texts. -/
theorem applyDelta_length_of_wf_script (S d : List Char)
    (hwf : ∀ t ∈ deltaTokens d, wfTok t = true)
    (hfit : scriptConsumed (deltaTokens d) ≤ S.length) :
    (applyDeltaChars S d).length =
      scriptCopyLen (deltaTokens d) + scriptInsLen (deltaTokens d) := by
  have h := applyDeltaTokens_length S (deltaTokens d) 0 [] hwf (by simpa using hfit)
  simpa [applyDeltaChars] using h

/-- Witness for the amended C3 length law at a concrete snapshot and script. -/
theorem applyDelta_length_of_wf_script_witness :
    (applyDeltaChars ("Hello World".data) ("=5 -1 +X!".data)).length =
      scriptCopyLen (deltaTokens ("=5 -1 +X!".data)) +
        scriptInsLen (deltaTokens ("=5 -1 +X!".data)) :=
  applyDelta_length_of_wf_script ("Hello World".data) ("=5 -1 +X!".data)
    (by decide) (by decide)

/-- C9: a whitespace-separated delta token whose first character is not `=`,
`-`, or `+` is a complete no-op — the rest of the script runs from an
unchanged cursor and output — and every token produced by the tokenizer is
whitespace-free (so the literal text of a `+` insertion can never contain
whitespace, whitespace always terminating a token). -/
theorem unknownToken_noop_and_tokens_ws_free
    (original t : List Char) (ts : List (List Char)) (idx : JSNum)
    (acc d u : List Char)
    (h1 : t.head? ≠ some '=') (h2 : t.head? ≠ some '-') (h3 : t.head? ≠ some '+')
    (hu : u ∈ deltaTokens d) :
    applyDeltaTokens original (t :: ts) idx acc = applyDeltaTokens original ts idx acc ∧
    u.all (fun c => !isJsWs c) = true := by
  constructor
  · simp only [applyDeltaTokens]
    rw [if_neg h1, if_neg h2, if_neg h3]
  · refine List.all_eq_true.mpr fun c hcm => ?_
    rw [deltaTokens_ws_free d u hu c hcm]
    rfl

/-- Witness for C9 at a concrete token, script, and patcher state. -/
theorem unknownToken_noop_and_tokens_ws_free_witness :
    applyDeltaTokens ("ab".data) (['?', 'x'] :: [['=', '1']]) (.int 0) [] =
      applyDeltaTokens ("ab".data) [['=', '1']] (.int 0) [] ∧
    List.all ['=', '1'] (fun c => !isJsWs c) = true :=
  unknownToken_noop_and_tokens_ws_free ("ab".data) ['?', 'x'] [['=', '1']]
    (.int 0) [] ("=1 +y".data) ['=', '1'] (by decide) (by decide) (by decide)
    (by decide)

/-! ## Inbound frame handling (`wsClient.onmessage`, `src/websocket.ts` 139-185) -/

/-- JS `raw.split(" ")`: split on every single space character; the result is
always nonempty. -/
def splitSp : List Char → List (List Char)
  | [] => [[]]
  | c :: rest =>
    if c = ' ' then [] :: splitSp rest
    else
      match splitSp rest with
      | s :: ss => (c :: s) :: ss
      | [] => [[c]]

/-- JS `parts.join(" ")`. -/
def joinSp : List (List Char) → List Char
  | [] => []
  | [s] => s
  | s :: rest => s ++ ' ' :: joinSp rest

/-- JS `Map.prototype.get` on an association list. -/
def mapGet {α : Type} : List (List Char × α) → List Char → Option α
  | [], _ => none
  | (k', v) :: rest, k => if k' = k then some v else mapGet rest k

/-- JS `Map.prototype.has`. -/
def mapHas {α : Type} (m : List (List Char × α)) (k : List Char) : Bool :=
  (mapGet m k).isSome

/-- JS `Map.prototype.set`: update the existing binding when the key is
present, otherwise append a new one. -/
def mapSet {α : Type} : List (List Char × α) → List Char → α → List (List Char × α)
  | [], k, v => [(k, v)]
  | (k', v') :: rest, k, v =>
    if k' = k then (k, v) :: rest else (k', v') :: mapSet rest k v

/-- JS `Map.prototype.delete`: a JS `Map` never holds duplicate keys, so
removing the key is removing every pair carrying it. -/
def mapDelete {α : Type} (m : List (List Char × α)) (k : List Char) :
    List (List Char × α) :=
  m.filter fun p => p.1 ≠ k

/-- Observable callback activity of one inbound frame: `data id text` records
`subscriptions.get(id)?.(JSON.parse(text))`, `closeSentinel id` records the
call with the sentinel object whose `messageType` field is `"C"`. -/
inductive Invocation where
  | data (id : List Char) (text : List Char)
  | closeSentinel (id : List Char)
deriving DecidableEq

/-- Console output of one inbound frame (`console.error` / `console.warn`). -/
inductive LogEvent where
  | parseSnapshotFailed
  | parseDeltaFailed
  | noPreviousPayload
deriving DecidableEq

/-- The per-connection subscription state of `TRWebSocket`: the value of a
`subscriptions` entry records whether a callback was supplied (the source
stores `callback | undefined` and invokes it optionally). -/
structure EngineState where
  subscriptions : List (List Char × Bool)
  lastSubscriptionPayload : List (List Char × List Char)
deriving DecidableEq

/-- The optional call `this.subscriptions.get(id)?.(x)`: an invocation is
recorded only when a callback was installed. -/
def invokeCallback (st : EngineState) (id : List Char) (inv : Invocation) :
    List Invocation :=
  if mapGet st.subscriptions id = some true then [inv] else []

/-- Dispatch of `onmessage` after the destructuring
`const [id, letter, ...parts] = raw.split(" ")`.  `parse` is the
`JSON.parse` success oracle.  The JS truthiness test `if (lastPayload)` is
the test that the stored text, defaulting to the empty string, is nonempty.
In the `D` branch the source runs `JSON.parse(newPayloadString)` *before*
`this.lastSubscriptionPayload.set(id, newPayloadString)`, so on parse failure
nothing is stored. -/
def processParts (parse : List Char → Bool) (st : EngineState)
    (id : List Char) (letter : Option (List Char)) (payload : List Char) :
    EngineState × List Invocation × List LogEvent :=
  if id = [] ∨ mapHas st.subscriptions id = false then (st, [], [])
  else if letter = some ['A'] then
    if parse payload then
      ({ st with lastSubscriptionPayload := mapSet st.lastSubscriptionPayload id payload },
        invokeCallback st id (.data id payload), [])
    else (st, [], [.parseSnapshotFailed])
  else if letter = some ['D'] then
    let lastPayload := mapGet st.lastSubscriptionPayload id
    if lastPayload.getD [] = [] then (st, [], [.noPreviousPayload])
    else
      let newPayloadString := applyDeltaChars (lastPayload.getD []) payload
      if parse newPayloadString then
        ({ st with lastSubscriptionPayload :=
              mapSet st.lastSubscriptionPayload id newPayloadString },
          invokeCallback st id (.data id newPayloadString), [])
      else (st, [], [.parseDeltaFailed])
  else if letter = some ['C'] then
    ({ subscriptions := mapDelete st.subscriptions id,
        lastSubscriptionPayload := mapDelete st.lastSubscriptionPayload id },
      invokeCallback st id (.closeSentinel id), [])
  else (st, [], [])

/-- `wsClient.onmessage` on one raw frame: split on single spaces, take the
first part as id, the second as the frame letter (`undefined` when missing),
and rejoin the remainder with spaces as the payload. -/
def processMessage (parse : List Char → Bool) (st : EngineState)
    (raw : List Char) : EngineState × List Invocation × List LogEvent :=
  let parts := splitSp raw
  processParts parse st (parts.headD []) ((parts.drop 1).head?)
    (joinSp (parts.drop 2))

theorem splitSp_append_space (I rest : List Char) (h : ∀ c ∈ I, c ≠ ' ') :
    splitSp (I ++ ' ' :: rest) = I :: splitSp rest := by
  induction I with
  | nil => simp [splitSp]
  | cons c t ih =>
    have hc : c ≠ ' ' := h c (by simp)
    have ht : ∀ x ∈ t, x ≠ ' ' := fun x hx => h x (by simp [hx])
    simp only [List.cons_append, splitSp]
    rw [if_neg hc]
    simp only [List.append_eq]
    rw [ih ht]

theorem splitSp_no_space (I : List Char) (h : ∀ c ∈ I, c ≠ ' ') :
    splitSp I = [I] := by
  induction I with
  | nil => simp [splitSp]
  | cons c t ih =>
    have hc : c ≠ ' ' := h c (by simp)
    have ht : ∀ x ∈ t, x ≠ ' ' := fun x hx => h x (by simp [hx])
    simp only [splitSp]
    rw [if_neg hc, ih ht]

theorem splitSp_ne_nil (s : List Char) : splitSp s ≠ [] := by
  match s with
  | [] => simp [splitSp]
  | c :: rest =>
    simp only [splitSp]
    by_cases hc : c = ' '
    · rw [if_pos hc]
      simp
    · rw [if_neg hc]
      cases hsp : splitSp rest with
      | nil => simp
      | cons s ss => simp

theorem joinSp_cons_head (c : Char) (s : List Char) (ss : List (List Char)) :
    joinSp ((c :: s) :: ss) = c :: joinSp (s :: ss) := by
  cases ss <;> simp [joinSp]

theorem joinSp_splitSp (s : List Char) : joinSp (splitSp s) = s := by
  induction s with
  | nil => simp [splitSp, joinSp]
  | cons c rest ih =>
    simp only [splitSp]
    by_cases hc : c = ' '
    · rw [if_pos hc]
      subst hc
      obtain ⟨s, ss, hsp⟩ := List.exists_cons_of_ne_nil (splitSp_ne_nil rest)
      rw [hsp]
      have h2 : joinSp ([] :: s :: ss) = ' ' :: joinSp (s :: ss) := by simp [joinSp]
      rw [h2, ← hsp, ih]
    · rw [if_neg hc]
      obtain ⟨s, ss, hsp⟩ := List.exists_cons_of_ne_nil (splitSp_ne_nil rest)
      rw [hsp]
      show joinSp ((c :: s) :: ss) = c :: rest
      rw [joinSp_cons_head, ← hsp, ih]

theorem mapGet_mapDelete {α : Type} (m : List (List Char × α)) (k : List Char) :
    mapGet (mapDelete m k) k = none := by
  induction m with
  | nil => rfl
  | cons p rest ih =>
    rcases p with ⟨k', v⟩
    simp only [mapDelete, List.filter_cons] at ih ⊢
    by_cases h : k' = k
    · rw [if_neg (by simp [h])]
      exact ih
    · rw [if_pos (by simp [h])]
      simp only [mapGet]
      rw [if_neg h]
      exact ih

theorem processParts_absent (parse : List Char → Bool) (st : EngineState)
    (id : List Char) (letter : Option (List Char)) (payload : List Char)
    (h : mapHas st.subscriptions id = false) :
    processParts parse st id letter payload = (st, [], []) := by
  simp only [processParts]
  rw [if_pos (Or.inr h)]

/-- Concrete `JSON.parse` success oracle accepting exactly the two-character
text consisting of an opening and a closing curly brace. -/
def parseOnlyBraces (s : List Char) : Bool := s = ['\x7b', '\x7d']

/-- C1 (counterexample): take the engine state holding a subscription for id
`"1"` with stored snapshot text `"\x7b\x7d"`, and deliver the frame
`1 D +x`; the patched text is `"x"`, which fails to parse.  Afterwards the
stored snapshot is still the OLD text and differs from the patched text: the
stored snapshot has *not* "already been overwritten with the patched text
before the parse is attempted", because the source parses the patched text
first and stores it only on success. -/
theorem snapshot_not_overwritten_counterexample :
    applyDeltaChars ['\x7b', '\x7d'] ['+', 'x'] = ['x'] ∧
    parseOnlyBraces ['x'] = false ∧
    (processMessage parseOnlyBraces
        ⟨[(['1'], true)], [(['1'], ['\x7b', '\x7d'])]⟩
        ('1' :: ' ' :: 'D' :: ' ' :: ['+', 'x'])).1.lastSubscriptionPayload =
      [(['1'], ['\x7b', '\x7d'])] ∧
    (['\x7b', '\x7d'] : List Char) ≠ ['x'] := by decide

/-- C1 (amended): for every subscription id with a stored last snapshot, when
a `D` frame arrives and JSON-parsing the patched text fails, the engine logs
the failure, does not invoke the callback for that frame, and leaves
`last_snapshot_text` at its previous value — the patched text is stored only
after a successful parse, so nothing has to be reverted. -/
theorem deltaParseFailure_state_unchanged
    (parse : List Char → Bool) (st : EngineState)
    (I payload lastPayload : List Char)
    (hne : I ≠ []) (hsp : ∀ c ∈ I, c ≠ ' ')
    (hhas : mapHas st.subscriptions I = true)
    (hlast : mapGet st.lastSubscriptionPayload I = some lastPayload)
    (hlne : lastPayload ≠ [])
    (hfail : parse (applyDeltaChars lastPayload payload) = false) :
    processMessage parse st (I ++ ' ' :: 'D' :: ' ' :: payload) =
      (st, [], [.parseDeltaFailed]) := by
  have hsplit : splitSp (I ++ ' ' :: 'D' :: ' ' :: payload) =
      I :: ['D'] :: splitSp payload := by
    rw [splitSp_append_space I _ hsp]
    have h2 : splitSp ('D' :: ' ' :: payload) = ['D'] :: splitSp payload := by
      have h3 := splitSp_append_space ['D'] payload (by decide)
      simpa using h3
    rw [h2]
  have h1 : processMessage parse st (I ++ ' ' :: 'D' :: ' ' :: payload) =
      processParts parse st I (some ['D']) (joinSp (splitSp payload)) := by
    simp only [processMessage, hsplit]
    rfl
  rw [h1, joinSp_splitSp]
  simp only [processParts]
  rw [if_neg (by simp [hne, hhas])]
  rw [if_neg (by decide), if_pos (by decide)]
  simp only [hlast, Option.getD_some]
  rw [if_neg hlne, if_neg (by simp [hfail])]

/-- Witness for the amended C1 at a concrete state and frame. -/
theorem deltaParseFailure_state_unchanged_witness :
    processMessage parseOnlyBraces
        ⟨[(['1'], true)], [(['1'], ['\x7b', '\x7d'])]⟩
        (['1'] ++ ' ' :: 'D' :: ' ' :: ['+', 'x']) =
      (⟨[(['1'], true)], [(['1'], ['\x7b', '\x7d'])]⟩, [],
        [.parseDeltaFailed]) :=
  deltaParseFailure_state_unchanged parseOnlyBraces
    ⟨[(['1'], true)], [(['1'], ['\x7b', '\x7d'])]⟩ ['1'] ['+', 'x']
    ['\x7b', '\x7d'] (by decide) (by decide) (by decide) (by decide)
    (by decide) (by decide)

/-- C6: after a `C` frame for id `I` is processed, the callback has been
invoked exactly once with the close sentinel and no error was logged, the
entry is evicted, and every subsequent inbound frame carrying id `I` —
whatever its letter and payload, and also a bare-id frame — is dropped
without invoking any callback, without logging, and without touching the
state. -/
theorem close_evicts_then_frames_dropped
    (parse : List Char → Bool) (st : EngineState) (I rest : List Char)
    (hne : I ≠ []) (hsp : ∀ c ∈ I, c ≠ ' ')
    (hcb : mapGet st.subscriptions I = some true) :
    (processMessage parse st (I ++ ' ' :: ['C'])).2.1 = [.closeSentinel I] ∧
    (processMessage parse st (I ++ ' ' :: ['C'])).2.2 = [] ∧
    mapHas (processMessage parse st (I ++ ' ' :: ['C'])).1.subscriptions I = false ∧
    processMessage parse (processMessage parse st (I ++ ' ' :: ['C'])).1
        (I ++ ' ' :: rest) =
      ((processMessage parse st (I ++ ' ' :: ['C'])).1, [], []) ∧
    processMessage parse (processMessage parse st (I ++ ' ' :: ['C'])).1 I =
      ((processMessage parse st (I ++ ' ' :: ['C'])).1, [], []) := by
  have hhas : mapHas st.subscriptions I = true := by
    simp [mapHas, hcb]
  have hC : processMessage parse st (I ++ ' ' :: ['C']) =
      (⟨mapDelete st.subscriptions I, mapDelete st.lastSubscriptionPayload I⟩,
        [.closeSentinel I], []) := by
    have hsplit : splitSp (I ++ ' ' :: ['C']) = I :: [['C']] := by
      rw [splitSp_append_space I _ hsp]
      rfl
    have h1 : processMessage parse st (I ++ ' ' :: ['C']) =
        processParts parse st I (some ['C']) (joinSp []) := by
      simp only [processMessage, hsplit]
      rfl
    rw [h1]
    simp only [processParts]
    rw [if_neg (by simp [hne, hhas])]
    rw [if_neg (by decide), if_neg (by decide), if_pos (by decide)]
    simp [invokeCallback, hcb]
  have hgone : mapHas (mapDelete st.subscriptions I) I = false := by
    simp [mapHas, mapGet_mapDelete]
  refine ⟨by rw [hC], by rw [hC], by rw [hC]; exact hgone, ?_, ?_⟩
  · rw [hC]
    have hsplit2 : splitSp (I ++ ' ' :: rest) = I :: splitSp rest :=
      splitSp_append_space I rest hsp
    have h2 : processMessage parse
        (⟨mapDelete st.subscriptions I, mapDelete st.lastSubscriptionPayload I⟩ :
          EngineState) (I ++ ' ' :: rest) =
        processParts parse
          ⟨mapDelete st.subscriptions I, mapDelete st.lastSubscriptionPayload I⟩
          I ((splitSp rest).head?) (joinSp ((splitSp rest).drop 1)) := by
      simp only [processMessage, hsplit2]
      rfl
    rw [h2]
    exact processParts_absent _ _ _ _ _ hgone
  · rw [hC]
    have hsplit3 : splitSp I = [I] := splitSp_no_space I hsp
    have h3 : processMessage parse
        (⟨mapDelete st.subscriptions I, mapDelete st.lastSubscriptionPayload I⟩ :
          EngineState) I =
        processParts parse
          ⟨mapDelete st.subscriptions I, mapDelete st.lastSubscriptionPayload I⟩
          I none (joinSp []) := by
      simp only [processMessage, hsplit3]
      rfl
    rw [h3]
    exact processParts_absent _ _ _ _ _ hgone

/-- Witness for C6 at a concrete state, id, and follow-up frame. -/
theorem close_evicts_then_frames_dropped_witness :
    (processMessage (fun _ => true) ⟨[(['7'], true)], [(['7'], ['\x7b', '\x7d'])]⟩
        (['7'] ++ ' ' :: ['C'])).2.1 = [.closeSentinel ['7']] ∧
    (processMessage (fun _ => true) ⟨[(['7'], true)], [(['7'], ['\x7b', '\x7d'])]⟩
        (['7'] ++ ' ' :: ['C'])).2.2 = [] ∧
    mapHas (processMessage (fun _ => true)
        ⟨[(['7'], true)], [(['7'], ['\x7b', '\x7d'])]⟩
        (['7'] ++ ' ' :: ['C'])).1.subscriptions ['7'] = false ∧
    processMessage (fun _ => true)
        (processMessage (fun _ => true)
          ⟨[(['7'], true)], [(['7'], ['\x7b', '\x7d'])]⟩
          (['7'] ++ ' ' :: ['C'])).1
        (['7'] ++ ' ' :: ('D' :: ' ' :: ['+', 'x'])) =
      ((processMessage (fun _ => true)
          ⟨[(['7'], true)], [(['7'], ['\x7b', '\x7d'])]⟩
          (['7'] ++ ' ' :: ['C'])).1, [], []) ∧
    processMessage (fun _ => true)
        (processMessage (fun _ => true)
          ⟨[(['7'], true)], [(['7'], ['\x7b', '\x7d'])]⟩
          (['7'] ++ ' ' :: ['C'])).1 ['7'] =
      ((processMessage (fun _ => true)
          ⟨[(['7'], true)], [(['7'], ['\x7b', '\x7d'])]⟩
          (['7'] ++ ' ' :: ['C'])).1, [], []) :=
  close_evicts_then_frames_dropped (fun _ => true)
    ⟨[(['7'], true)], [(['7'], ['\x7b', '\x7d'])]⟩ ['7']
    ('D' :: ' ' :: ['+', 'x']) (by decide) (by decide) (by decide)

/-! ## Request-id allocation (`requestIdCounter` and `subscribeTo`) -/

def digitChar : ℕ → Char
  | 0 => '0'
  | 1 => '1'
  | 2 => '2'
  | 3 => '3'
  | 4 => '4'
  | 5 => '5'
  | 6 => '6'
  | 7 => '7'
  | 8 => '8'
  | 9 => '9'
  | _ => '*'

def natToCharsCore : ℕ → ℕ → List Char → List Char
  | 0, _, acc => acc
  | fuel + 1, n, acc =>
    if n < 10 then digitChar (n % 10) :: acc
    else natToCharsCore fuel (n / 10) (digitChar (n % 10) :: acc)

/-- JS `Number.prototype.toString()` for the non-negative integers taken by
the request-id counter: the usual decimal rendering. -/
def natToChars (n : ℕ) : List Char := natToCharsCore (n + 1) n []

theorem digitChar_toNat (m : ℕ) (h : m < 10) : (digitChar m).toNat = 48 + m := by
  interval_cases m <;> decide

theorem digitsVal_nil : digitsVal [] = 0 := rfl

theorem digitsVal_cons (c : Char) (acc : List Char) :
    digitsVal (c :: acc) = (c.toNat - 48) * 10 ^ acc.length + digitsVal acc := by
  show List.foldl _ (10 * 0 + (c.toNat - 48)) acc = _
  rw [digitsVal_foldl]
  ring_nf

theorem digitsVal_natToCharsCore (fuel : ℕ) :
    ∀ (n : ℕ) (acc : List Char), n < 10 ^ fuel →
      digitsVal (natToCharsCore fuel n acc) = n * 10 ^ acc.length + digitsVal acc := by
  induction fuel with
  | zero =>
    intro n acc h
    have hn : n = 0 := by simpa using h
    subst hn
    simp [natToCharsCore]
  | succ fuel ih =>
    intro n acc h
    simp only [natToCharsCore]
    by_cases h10 : n < 10
    · rw [if_pos h10]
      rw [digitsVal_cons, digitChar_toNat _ (by omega)]
      have hm : 48 + n % 10 - 48 = n % 10 := by omega
      rw [hm, Nat.mod_eq_of_lt h10]
    · rw [if_neg h10]
      have hdiv : n / 10 < 10 ^ fuel := by
        rw [Nat.div_lt_iff_lt_mul (by norm_num)]
        calc n < 10 ^ (fuel + 1) := h
          _ = 10 ^ fuel * 10 := by rw [pow_succ]
      rw [ih (n / 10) (digitChar (n % 10) :: acc) hdiv]
      rw [digitsVal_cons, digitChar_toNat _ (by omega)]
      have hm : 48 + n % 10 - 48 = n % 10 := by omega
      rw [hm]
      simp only [List.length_cons, pow_succ]
      have hrw : n / 10 * (10 ^ acc.length * 10) +
          (n % 10 * 10 ^ acc.length + digitsVal acc) =
          (10 * (n / 10) + n % 10) * 10 ^ acc.length + digitsVal acc := by ring
      rw [hrw, Nat.div_add_mod]

theorem digitsVal_natToChars (n : ℕ) : digitsVal (natToChars n) = n := by
  have hlt : n < 10 ^ (n + 1) := by
    calc n < 10 ^ n := Nat.lt_pow_self (by norm_num) n
      _ ≤ 10 ^ (n + 1) := Nat.pow_le_pow_right (by norm_num) (by omega)
  have h := digitsVal_natToCharsCore (n + 1) n [] hlt
  simpa [natToChars, digitsVal_nil] using h

/-- The construction-time state of a `TRWebSocket` instance
(`src/websocket.ts` 56-68): counter at 1, empty maps, no transport. -/
structure TRWebSocketState where
  sessionCookies : List (List Char)
  language : List Char
  connected : Bool
  engine : EngineState
  requestIdCounter : ℕ
deriving DecidableEq

def TRWebSocketNew (sessionCookies : List (List Char)) (language : List Char) :
    TRWebSocketState :=
  { sessionCookies := sessionCookies, language := language, connected := false,
    engine := { subscriptions := [], lastSubscriptionPayload := [] },
    requestIdCounter := 1 }

/-- Reserved handshake identifier: `wsClient.onopen` sends
`connect 31 <json>` with the literal request id `"31"`
(`src/websocket.ts` 124-137). -/
def connectFrameId : List Char := ['3', '1']

/-- `subscribeTo(payload, callback)` (`src/websocket.ts` 255-261): render the
counter as the decimal request id, increment the counter, install the
callback under the id, and have `subscribe` send `sub <id> <payload>`
(`subscribe` throws instead of sending when no transport is attached — after
the entry was already installed).  Returns the new state, the allocated id,
and the sent frame when connected. -/
def subscribeTo (st : TRWebSocketState) (payloadText : List Char)
    (hasCallback : Bool) :
    TRWebSocketState × List Char × Option (List Char) :=
  let requestId := natToChars st.requestIdCounter
  ({ st with
      requestIdCounter := st.requestIdCounter + 1,
      engine := { st.engine with
        subscriptions := mapSet st.engine.subscriptions requestId hasCallback } },
    requestId,
    if st.connected then
      some (('s' :: 'u' :: 'b' :: ' ' :: requestId) ++ ' ' :: payloadText)
    else none)

/-- State after `k` `subscribeTo` calls with per-call payloads and callbacks. -/
def subscribeSeq (st : TRWebSocketState) (payloads : ℕ → List Char)
    (cbs : ℕ → Bool) : ℕ → TRWebSocketState
  | 0 => st
  | k + 1 =>
    (subscribeTo (subscribeSeq st payloads cbs k) (payloads k) (cbs k)).1

/-- The id allocated by the `k`-th `subscribeTo` call (counting from 0). -/
def allocatedId (st : TRWebSocketState) (payloads : ℕ → List Char)
    (cbs : ℕ → Bool) (k : ℕ) : List Char :=
  (subscribeTo (subscribeSeq st payloads cbs k) (payloads k) (cbs k)).2.1

theorem subscribeSeq_counter (st : TRWebSocketState) (payloads : ℕ → List Char)
    (cbs : ℕ → Bool) (k : ℕ) :
    (subscribeSeq st payloads cbs k).requestIdCounter = st.requestIdCounter + k := by
  induction k with
  | zero => rfl
  | succ k ih =>
    show (subscribeTo (subscribeSeq st payloads cbs k) (payloads k)
        (cbs k)).1.requestIdCounter = _
    simp only [subscribeTo]
    rw [ih]
    omega

theorem allocatedId_eq (st : TRWebSocketState) (payloads : ℕ → List Char)
    (cbs : ℕ → Bool) (k : ℕ) :
    allocatedId st payloads cbs k = natToChars (st.requestIdCounter + k) := by
  show (subscribeTo (subscribeSeq st payloads cbs k) (payloads k) (cbs k)).2.1 = _
  simp only [subscribeTo]
  rw [subscribeSeq_counter]

/-- C5: within one `TRWebSocket` instance, every id allocated and installed
by `subscribeTo`, read as a decimal integer, is strictly greater than every
previously allocated id, and the first allocated id is `"1"`. -/
theorem allocatedId_strict_mono (cookies : List (List Char)) (lang : List Char)
    (payloads : ℕ → List Char) (cbs : ℕ → Bool) (j k : ℕ) (h : j < k) :
    digitsVal (allocatedId (TRWebSocketNew cookies lang) payloads cbs j) <
      digitsVal (allocatedId (TRWebSocketNew cookies lang) payloads cbs k) ∧
    allocatedId (TRWebSocketNew cookies lang) payloads cbs 0 = ['1'] := by
  constructor
  · rw [allocatedId_eq, allocatedId_eq, digitsVal_natToChars, digitsVal_natToChars]
    simp only [TRWebSocketNew]
    omega
  · rw [allocatedId_eq]
    simp only [TRWebSocketNew]
    rfl

/-- Witness for C5 at the first two allocations of a fresh instance. -/
theorem allocatedId_strict_mono_witness :
    digitsVal (allocatedId (TRWebSocketNew [] ['e', 'n']) (fun _ => [])
        (fun _ => true) 0) <
      digitsVal (allocatedId (TRWebSocketNew [] ['e', 'n']) (fun _ => [])
        (fun _ => true) 1) ∧
    allocatedId (TRWebSocketNew [] ['e', 'n']) (fun _ => []) (fun _ => true) 0 =
      ['1'] :=
  allocatedId_strict_mono [] ['e', 'n'] (fun _ => []) (fun _ => true) 0 1
    (by decide)

/-- C4: evaluation at the failing input.  Starting from a fresh `TRWebSocket`,
the 31st `subscribeTo` call (after 30 previous subscriptions) allocates the
reserved handshake id `"31"` and installs it in the subscription map: the
data-subscription counter does reach the reserved id. -/
theorem thirtyFirst_subscribe_uses_reserved_id :
    allocatedId (TRWebSocketNew [] ['e', 'n']) (fun _ => []) (fun _ => true) 30 =
      connectFrameId ∧
    mapHas (subscribeSeq (TRWebSocketNew [] ['e', 'n']) (fun _ => [])
        (fun _ => true) 31).engine.subscriptions connectFrameId = true := by
  decide

/-! ## Client session state (`TradeRepublicClient`, `src/index.ts`) -/

inductive CompleteLoginResult where
  | misuseReject (message : List Char)
  | httpReject
  | success (cookies : List (List Char))
deriving DecidableEq

structure ClientState where
  processId : Option (List Char)
  initialCookies : List (List Char)
  sessionCookies : List (List Char)
  language : List Char
  ws : TRWebSocketState
deriving DecidableEq

/-- `new TradeRepublicClient(language)`: the nested `ws` handle starts as
`new TRWebSocket([])` with the default language `"en"`. -/
def TradeRepublicClientNew (language : List Char) : ClientState :=
  { processId := none, initialCookies := [], sessionCookies := [],
    language := language, ws := TRWebSocketNew [] ['e', 'n'] }

def loginNotInitiatedMessage : List Char :=
  ("Login not initiated. Call initiateLogin() first.").data

def noInitialCookiesMessage : List Char :=
  ("No initial cookies found. Call initiateLogin() first.").data

def invalidCookiesMessage : List Char := ("Invalid cookies provided").data

/-- `completeLogin(otpCode)` (`src/index.ts` 54-78).  The two guards reject
before the signed request is made; `response` models the outcome of that
I/O — `none` a failed request, `some cs` a success whose extracted cookies
are `cs`.  On success the client stores the session cookies and replaces
`ws` with a `TRWebSocket` built from them and the client language. -/
def completeLogin (st : ClientState) (otpCode : List Char)
    (response : Option (List (List Char))) : ClientState × CompleteLoginResult :=
  if st.processId = none then
    (st, .misuseReject loginNotInitiatedMessage)
  else if st.initialCookies = [] then
    (st, .misuseReject noInitialCookiesMessage)
  else
    match response with
    | none => (st, .httpReject)
    | some cookies =>
      ({ st with
          sessionCookies := cookies,
          ws := TRWebSocketNew cookies st.language }, .success cookies)

/-- `loginWithCookies(cookies)` (`src/index.ts` 85-96): reject an empty
cookie list, otherwise adopt the cookies and rebuild `ws` from them. -/
def loginWithCookies (st : ClientState) (cookies : List (List Char)) :
    ClientState × CompleteLoginResult :=
  if cookies = [] then (st, .misuseReject invalidCookiesMessage)
  else
    ({ st with
        processId := none,
        initialCookies := [],
        sessionCookies := cookies,
        ws := TRWebSocketNew cookies st.language },
      .success cookies)

inductive ConnectResult where
  | notAuthenticatedReject
  | transportFailed
  | connected (cookieHeader : List Char)
deriving DecidableEq

/-- `cookies.join("; ")`. -/
def joinCookies : List (List Char) → List Char
  | [] => []
  | [c] => c
  | c :: rest => c ++ ';' :: ' ' :: joinCookies rest

/-- `TRWebSocket.connectWebSocket(url)` (`src/websocket.ts` 104-137) up to
its transport effects: the cookie guard rejects before any transport is
created; otherwise the transport is opened with the joined cookie header
(`transportOk` models whether `createWebSocket` succeeds). -/
def connectWebSocket (ws : TRWebSocketState) (transportOk : Bool) :
    TRWebSocketState × ConnectResult :=
  if ws.sessionCookies = [] then (ws, .notAuthenticatedReject)
  else if transportOk then
    ({ ws with connected := true }, .connected (joinCookies ws.sessionCookies))
  else (ws, .transportFailed)

/-- `logout()` (`src/index.ts` 268-272): rebinds `processId`,
`initialCookies`, and `sessionCookies` to fresh empty values; the `ws` field
is not touched (in the source, `this.sessionCookies = []` rebinds the
client's field and does not mutate the array the `ws` instance captured). -/
def logout (st : ClientState) : ClientState :=
  { st with processId := none, initialCookies := [], sessionCookies := [] }

/-- C7: `completeLogin` called before `initiateLogin` (`processId` unset) or
with an empty initial-cookie list rejects with a misuse error independently
of any HTTP outcome (so before performing any I/O) and leaves all client
state unchanged; likewise `connectWebSocket` with an empty session-cookie
list rejects with the not-authenticated error independently of the transport
outcome and changes nothing. -/
theorem misuse_rejects_without_side_effects
    (st : ClientState) (otp : List Char)
    (response response' : Option (List (List Char)))
    (ws : TRWebSocketState) (tOk tOk' : Bool)
    (h : st.processId = none ∨ st.initialCookies = [])
    (hws : ws.sessionCookies = []) :
    (completeLogin st otp response).1 = st ∧
    ((completeLogin st otp response).2 = .misuseReject loginNotInitiatedMessage ∨
      (completeLogin st otp response).2 = .misuseReject noInitialCookiesMessage) ∧
    completeLogin st otp response = completeLogin st otp response' ∧
    connectWebSocket ws tOk = (ws, .notAuthenticatedReject) ∧
    connectWebSocket ws tOk = connectWebSocket ws tOk' := by
  have hcw : ∀ b, connectWebSocket ws b = (ws, .notAuthenticatedReject) := by
    intro b
    simp [connectWebSocket, hws]
  have hsame : ∀ r r', completeLogin st otp r = completeLogin st otp r' := by
    intro r r'
    by_cases hp : st.processId = none
    · simp [completeLogin, hp]
    · rcases h with h | h
      · exact absurd h hp
      · simp [completeLogin, hp, h]
  have hcl1 : (completeLogin st otp response).1 = st := by
    by_cases hp : st.processId = none
    · simp [completeLogin, hp]
    · rcases h with h | h
      · exact absurd h hp
      · simp [completeLogin, hp, h]
  have hcl2 : (completeLogin st otp response).2 =
      .misuseReject loginNotInitiatedMessage ∨
      (completeLogin st otp response).2 = .misuseReject noInitialCookiesMessage := by
    by_cases hp : st.processId = none
    · left
      simp [completeLogin, hp]
    · rcases h with h | h
      · exact absurd h hp
      · right
        simp [completeLogin, hp, h]
  exact ⟨hcl1, hcl2, hsame response response', hcw tOk, by rw [hcw tOk, hcw tOk']⟩

/-- Witness for C7 at a fresh client and an empty-cookie socket. -/
theorem misuse_rejects_without_side_effects_witness :
    (completeLogin (TradeRepublicClientNew ['e', 'n']) ['1'] none).1 =
      TradeRepublicClientNew ['e', 'n'] ∧
    ((completeLogin (TradeRepublicClientNew ['e', 'n']) ['1'] none).2 =
        .misuseReject loginNotInitiatedMessage ∨
      (completeLogin (TradeRepublicClientNew ['e', 'n']) ['1'] none).2 =
        .misuseReject noInitialCookiesMessage) ∧
    completeLogin (TradeRepublicClientNew ['e', 'n']) ['1'] none =
      completeLogin (TradeRepublicClientNew ['e', 'n']) ['1'] (some [['a']]) ∧
    connectWebSocket (TRWebSocketNew [] ['e', 'n']) true =
      (TRWebSocketNew [] ['e', 'n'], .notAuthenticatedReject) ∧
    connectWebSocket (TRWebSocketNew [] ['e', 'n']) true =
      connectWebSocket (TRWebSocketNew [] ['e', 'n']) false :=
  misuse_rejects_without_side_effects (TradeRepublicClientNew ['e', 'n']) ['1']
    none (some [['a']]) (TRWebSocketNew [] ['e', 'n']) true false
    (Or.inl (by decide)) (by decide)

/-- C10: `logout()` resets exactly `processId`, `initialCookies`, and
`sessionCookies`; the nested `ws` handle installed by a successful
`completeLogin` or `loginWithCookies` — holding the non-empty cookie list it
was constructed with — is left unchanged, so after `logout()` the call
`ws.connectWebSocket()` still passes its not-authenticated guard. -/
theorem logout_leaves_ws_authenticated
    (st0 st : ClientState) (otp : List Char) (cookies : List (List Char))
    (hc : cookies ≠ [])
    (hmk : (st = (completeLogin st0 otp (some cookies)).1 ∧
            st0.processId ≠ none ∧ st0.initialCookies ≠ []) ∨
          st = (loginWithCookies st0 cookies).1) :
    (logout st).ws = st.ws ∧
    (logout st).language = st.language ∧
    (logout st).processId = none ∧
    (logout st).initialCookies = [] ∧
    (logout st).sessionCookies = [] ∧
    st.ws.sessionCookies = cookies ∧
    (connectWebSocket (logout st).ws true).2 = .connected (joinCookies cookies) := by
  have hws : st.ws = TRWebSocketNew cookies st0.language := by
    rcases hmk with ⟨hst, hp, hic⟩ | hst
    · subst hst
      rcases hpn : st0.processId with _ | pid
      · exact absurd hpn hp
      · simp [completeLogin, hpn, hic]
    · subst hst
      simp [loginWithCookies, hc]
  refine ⟨rfl, rfl, rfl, rfl, rfl, ?_, ?_⟩
  · rw [hws]
    rfl
  · show (connectWebSocket st.ws true).2 = _
    rw [hws]
    simp [connectWebSocket, TRWebSocketNew, hc]

/-- Witness for C10 after a concrete successful `completeLogin`. -/
theorem logout_leaves_ws_authenticated_witness :
    (logout (completeLogin
        ⟨some ['p'], [['i']], [], ['e', 'n'], TRWebSocketNew [] ['e', 'n']⟩
        ['o'] (some [['c']])).1).ws =
      (completeLogin
        ⟨some ['p'], [['i']], [], ['e', 'n'], TRWebSocketNew [] ['e', 'n']⟩
        ['o'] (some [['c']])).1.ws ∧
    (logout (completeLogin
        ⟨some ['p'], [['i']], [], ['e', 'n'], TRWebSocketNew [] ['e', 'n']⟩
        ['o'] (some [['c']])).1).language =
      (completeLogin
        ⟨some ['p'], [['i']], [], ['e', 'n'], TRWebSocketNew [] ['e', 'n']⟩
        ['o'] (some [['c']])).1.language ∧
    (logout (completeLogin
        ⟨some ['p'], [['i']], [], ['e', 'n'], TRWebSocketNew [] ['e', 'n']⟩
        ['o'] (some [['c']])).1).processId = none ∧
    (logout (completeLogin
        ⟨some ['p'], [['i']], [], ['e', 'n'], TRWebSocketNew [] ['e', 'n']⟩
        ['o'] (some [['c']])).1).initialCookies = [] ∧
    (logout (completeLogin
        ⟨some ['p'], [['i']], [], ['e', 'n'], TRWebSocketNew [] ['e', 'n']⟩
        ['o'] (some [['c']])).1).sessionCookies = [] ∧
    (completeLogin
        ⟨some ['p'], [['i']], [], ['e', 'n'], TRWebSocketNew [] ['e', 'n']⟩
        ['o'] (some [['c']])).1.ws.sessionCookies = [['c']] ∧
    (connectWebSocket (logout (completeLogin
        ⟨some ['p'], [['i']], [], ['e', 'n'], TRWebSocketNew [] ['e', 'n']⟩
        ['o'] (some [['c']])).1).ws true).2 = .connected (joinCookies [['c']]) :=
  logout_leaves_ws_authenticated
    ⟨some ['p'], [['i']], [], ['e', 'n'], TRWebSocketNew [] ['e', 'n']⟩
    (completeLogin
      ⟨some ['p'], [['i']], [], ['e', 'n'], TRWebSocketNew [] ['e', 'n']⟩
      ['o'] (some [['c']])).1
    ['o'] [['c']] (by decide) (Or.inl ⟨rfl, by decide, by decide⟩)

/-! ## Cookie extraction (`extractCookiesFromResponse`, `src/utils.ts` 79-136) -/

/-- Test of the regex `^\s*[^=;\s]+\s*=` on the (already trimmed) text after
a candidate comma: skip whitespace, require a nonempty run of characters none
of which is `=`, `;`, or whitespace, skip whitespace, require `=`.  The
greedy run is deterministic: shortening it can never let `\s*=` match,
because the next character would still be in the negated class. -/
def testCookieStart (s : List Char) : Bool :=
  let s1 := s.dropWhile isJsWs
  let key := s1.takeWhile fun c => !(c = '=' ∨ c = ';' ∨ isJsWs c)
  let rest := s1.dropWhile fun c => !(c = '=' ∨ c = ';' ∨ isJsWs c)
  key ≠ [] ∧ (rest.dropWhile isJsWs).head? = some '='

def asciiLower (c : Char) : Char :=
  if 'A' ≤ c ∧ c ≤ 'Z' then Char.ofNat (c.toNat + 32) else c

/-- Test of the case-insensitive regex `^(Mon|Tue|Wed|Thu|Fri|Sat|Sun)`. -/
def startsWithWeekday (s : List Char) : Bool :=
  match (s.take 3).map asciiLower with
  | ['m', 'o', 'n'] => true
  | ['t', 'u', 'e'] => true
  | ['w', 'e', 'd'] => true
  | ['t', 'h', 'u'] => true
  | ['f', 'r', 'i'] => true
  | ['s', 'a', 't'] => true
  | ['s', 'u', 'n'] => true
  | _ => false

/-- The character loop of the fallback `Set-Cookie` parser
(`src/utils.ts` 96-126): `cur` is the reversed current-cookie accumulator,
`inQuotes` the quote flag, `raw` the cookies pushed so far.  A `"` toggles
the flag; at an unquoted comma whose trimmed continuation looks like a new
`key=` and does not start with a weekday, the trimmed current cookie is
pushed (even when it trims to empty, as the source's `push(current.trim())`
does) and the accumulator restarts; every other character is appended.  At
the end the trimmed remainder is pushed only if nonempty. -/
def extractLoop : List Char → List Char → Bool → List (List Char) → List (List Char)
  | [], cur, _, raw =>
    if trimJs cur.reverse ≠ [] then raw ++ [trimJs cur.reverse] else raw
  | c :: rest, cur, inQuotes, raw =>
    let inQuotes' := if c = '"' then !inQuotes else inQuotes
    if c = ',' ∧ inQuotes' = false then
      let nextPart := trimJs rest
      if testCookieStart nextPart ∧ startsWithWeekday nextPart = false then
        extractLoop rest [] inQuotes' (raw ++ [trimJs cur.reverse])
      else extractLoop rest (c :: cur) inQuotes' raw
    else extractLoop rest (c :: cur) inQuotes' raw

/-- The single-comma-joined-header path of `extractCookiesFromResponse`
(`src/utils.ts` 89-136, the React-Native fallback): parse the `Set-Cookie`
value with the loop above, then keep only the `name=value` prefix of each
raw cookie (`cookie.split(";")[0]`) and drop falsy (empty) prefixes. -/
def extractCookiesFromResponse (sc : String) : List String :=
  (((extractLoop sc.data [] false []).map fun c =>
    c.takeWhile (· ≠ ';')).filter fun c => c ≠ []).map fun l => ⟨l⟩

/-- C8: the two literal cookie-parsing scenarios: commas inside
`expires=`-style weekday dates and inside quoted regions do not split, and
only the `name=value` prefix of each cookie is kept. -/
theorem extractCookies_literal_scenarios :
    extractCookiesFromResponse
        "session=abc; expires=Wed, 21 Oct 2025 07:28:00 GMT, user=xyz; path=/" =
      ["session=abc", "user=xyz"] ∧
    extractCookiesFromResponse
        "data=\x7b\"name\":\"John, Doe\"\x7d; path=/, token=12345" =
      ["data=\x7b\"name\":\"John, Doe\"\x7d", "token=12345"] := by
  decide

end TradeRepublicSdk
